import Mathlib

/-!
Verification development for the Jarvis voice-assistant repository.

The Python sources are shallowly embedded: pure helpers become Lean
functions, the mutable objects (Brain, Speaker, the assistant loop state)
become structures with explicit state passing, and every external effect
(the Ollama backend call, skill handler bodies, thread spawning) is
abstracted into an explicit parameter or an event trace recorded in the
state.  A Python call that can raise is modelled with the PyResult type.
-/

namespace Jarvis

/-! ## String helpers mirroring the Python primitives used by the sources -/

/-- Contiguous-occurrence test on lists: needle occurs as a prefix of
some suffix of the haystack. -/
def subOccurs (needle : List Char) : List Char → Bool
  | [] => needle.isPrefixOf []
  | c :: rest => needle.isPrefixOf (c :: rest) || subOccurs needle rest

/-- Model of the Python substring test needle in haystack: the character
list of the needle occurs contiguously inside the character list of the
haystack. -/
def strContains (haystack needle : String) : Bool :=
  subOccurs needle.toList haystack.toList

/-- Model of Python text.replace(kw, empty, 1) on character lists: remove
the first (leftmost) occurrence of kw, leaving the rest untouched. -/
def replaceFirst (kw : List Char) : List Char → List Char
  | [] => []
  | c :: rest =>
    if kw.isPrefixOf (c :: rest) then (c :: rest).drop kw.length
    else c :: replaceFirst kw rest

/-- String wrapper for replaceFirst. -/
def replaceFirstStr (kw s : String) : String :=
  String.mk (replaceFirst kw.toList s.toList)

/-- Model of Python text.replace(kw, empty) on character lists: remove
every (non-overlapping, leftmost-first) occurrence of kw. -/
def removeAll (kw : List Char) : List Char → List Char
  | [] => []
  | c :: rest =>
    if h : kw ≠ [] ∧ kw.isPrefixOf (c :: rest) then
      removeAll kw ((c :: rest).drop kw.length)
    else
      c :: removeAll kw rest
termination_by l => l.length
decreasing_by
  · simp only [List.length_drop, List.length_cons]
    have hk : kw.length ≠ 0 := by
      intro h0
      exact h.1 (List.eq_nil_of_length_eq_zero h0)
    omega
  · simp

/-- String wrapper for removeAll. -/
def removeAllStr (kw s : String) : String :=
  String.mk (removeAll kw.toList s.toList)

/-- Model of Python text.strip() with no argument: remove leading and
trailing whitespace characters. -/
def pyStrip (s : String) : String :=
  String.mk
    (((s.toList.dropWhile Char.isWhitespace).reverse.dropWhile
      Char.isWhitespace).reverse)

/-- Model of Python text.lower(): lower-case every character. -/
def pyLower (s : String) : String :=
  String.mk (s.toList.map Char.toLower)

/-- Worker for pySplit: collect maximal nonwhitespace runs, the current
partially read token held reversed in the accumulator. -/
def splitWSAux : List Char → List Char → List (List Char)
  | [], acc => if acc = [] then [] else [acc.reverse]
  | c :: rest, acc =>
    if c.isWhitespace then
      if acc = [] then splitWSAux rest []
      else acc.reverse :: splitWSAux rest []
    else splitWSAux rest (c :: acc)

/-- Model of Python text.split() with no separator: split on whitespace
runs and drop the empty pieces (leading, trailing and repeated
whitespace produce no tokens). -/
def pySplit (s : String) : List String :=
  (splitWSAux s.toList []).map String.mk

/-! ## Data model: messages, configuration, call results -/

/-- Message roles used by the conversation history (brain.py). -/
inductive Role where
  | system
  | user
  | assistant
deriving DecidableEq, Repr

/-- A single conversation message, as stored in Brain.history. -/
structure Message where
  role : Role
  content : String
deriving DecidableEq, Repr

/-- The configuration values from config.py that the embedded code
reads.  Defaults follow the source literals. -/
structure Config where
  maxHistoryLength : Nat
  wakeWords : List String
  stopWords : List String
  enableContext : Bool
deriving DecidableEq, Repr

/-- Default configuration from config.py: MAX_HISTORY_LENGTH 10,
WAKE_WORDS, STOP_WORDS, ENABLE_CONTEXT true. -/
def defaultConfig : Config :=
  { maxHistoryLength := 10
    wakeWords := ["jarvis", "hey jarvis"]
    stopWords := ["stop", "silence", "quiet", "shut up"]
    enableContext := true }

/-- The outcome of one Python call: a normal return value or a raised
exception (carrying the exception text). -/
inductive PyResult where
  | returns (s : String)
  | raises (e : String)
deriving DecidableEq, Repr

/-- The possible outcomes of the ollama.chat backend call made inside
Brain.chat: a successful response (whose message content is the given raw
string), an ollama.ResponseError, a ConnectionError, or any other
unexpected exception. -/
inductive BackendOutcome where
  | success (raw : String)
  | responseError (e : String)
  | connectionError (e : String)
  | otherError (e : String)
deriving DecidableEq, Repr

/-! ## Brain (brain.py) -/

/-- The mutable state of a Brain instance: its conversation history and
interaction counter (brain.py __init__). -/
structure Brain where
  history : List Message
  interaction_count : Nat
deriving DecidableEq, Repr

/-- A freshly constructed Brain: empty history, zero interactions. -/
def Brain.init : Brain :=
  { history := [], interaction_count := 0 }

/-- Embedding of Brain._trim_history: when the history exceeds the
configured maximum, drop the excess oldest messages from the front. -/
def trim_history (maxLength : Nat) (history : List Message) : List Message :=
  let excess := history.length - maxLength
  if excess > 0 then history.drop excess else history

/-- The canned clarification reply returned for an empty backend reply. -/
def emptyReplyMessage : String :=
  "I apologize, but I didn\x27t generate a response. Could you rephrase that?"

/-- The fixed diagnostic returned on a ConnectionError. -/
def connectionErrorMessage : String :=
  "I can\x27t connect to the AI model right now. Please make sure Ollama is installed and running on your system. You can download it from https://ollama.com/download"

/-- Embedding of Brain.chat.  The backend call is abstracted by the
outcome argument.  Mirrors the source: append the user message and trim,
then on success strip the reply, convert an empty reply into the canned
clarification (without storing it), otherwise append the assistant reply
and trim again; an ollama.ResponseError or a ConnectionError is converted
into a diagnostic string, while any other exception is re-raised by the
first except-clause and (the second except-clause of the same try being
unreachable for it) propagates to the caller. -/
def Brain.chat (b : Brain) (cfg : Config) (userMessage : String)
    (outcome : BackendOutcome) : Brain × PyResult :=
  let b1 : Brain :=
    { history := trim_history cfg.maxHistoryLength
        (b.history ++ [{ role := Role.user, content := userMessage }])
      interaction_count := b.interaction_count + 1 }
  match outcome with
  | BackendOutcome.success raw =>
    let assistantReply := pyStrip raw
    if assistantReply = "" then
      (b1, PyResult.returns emptyReplyMessage)
    else
      let h2 := trim_history cfg.maxHistoryLength
        (b1.history ++ [{ role := Role.assistant, content := assistantReply }])
      ({ b1 with history := h2 }, PyResult.returns assistantReply)
  | BackendOutcome.responseError e =>
    (b1, PyResult.returns ("I encountered an issue with the AI model: " ++ e ++
      ". Please make sure Ollama is running and the model is available."))
  | BackendOutcome.connectionError _ =>
    (b1, PyResult.returns connectionErrorMessage)
  | BackendOutcome.otherError e =>
    (b1, PyResult.raises e)

/-- Embedding of the request context built in step 2 of Brain.chat: the
system prompt followed by the whole history when context is enabled, and
only the latest message otherwise. -/
def buildMessages (cfg : Config) (systemPrompt : String)
    (history : List Message) : List Message :=
  let base := [{ role := Role.system, content := systemPrompt }]
  if cfg.enableContext then base ++ history
  else base ++ (history.getLast?.toList)

/-! ## Skills registry and router (skills.py, main.py) -/

/-- Tags for the handler functions that appear as values of the SKILLS
registry in skills.py.  Equality of tags models Python identity of the
underlying function objects (the lambdas are distinct objects, so each
gets its own tag). -/
inductive Skill where
  | open_app
  | close_app
  | get_time
  | get_date
  | get_datetime
  | control_hardware
  | lightsLambda
  | turnOnLambda
  | turnOffLambda
  | get_system_info
  | get_battery_status
  | search_web
  | volumeUpLambda
  | volumeDownLambda
  | muteLambda
deriving DecidableEq, Repr

/-- The SKILLS registry literal from skills.py, in insertion order (which
is the iteration order of a Python dict). -/
def SKILLS : List (String × Skill) :=
  [("open", Skill.open_app),
   ("launch", Skill.open_app),
   ("start", Skill.open_app),
   ("run", Skill.open_app),
   ("close", Skill.close_app),
   ("quit", Skill.close_app),
   ("what time", Skill.get_time),
   ("time", Skill.get_time),
   ("what date", Skill.get_date),
   ("date", Skill.get_date),
   ("what day", Skill.get_date),
   ("date and time", Skill.get_datetime),
   ("hardware", Skill.control_hardware),
   ("lights", Skill.lightsLambda),
   ("turn on", Skill.turnOnLambda),
   ("turn off", Skill.turnOffLambda),
   ("system info", Skill.get_system_info),
   ("battery", Skill.get_battery_status),
   ("search", Skill.search_web),
   ("google", Skill.search_web),
   ("volume up", Skill.volumeUpLambda),
   ("volume down", Skill.volumeDownLambda),
   ("mute", Skill.muteLambda)]

/-- The scan loop of JarvisAssistant.find_skill: walk the registry in
order keeping the best (strictly longest so far) matching keyword. -/
def findSkillGo (lowered : String) :
    List (String × Skill) → Option (Skill × String) → Nat → Option (Skill × String)
  | [], best, _ => best
  | (keyword, func) :: rest, best, bestLength =>
    if strContains lowered keyword ∧ bestLength < keyword.length then
      findSkillGo lowered rest (some (func, keyword)) keyword.length
    else
      findSkillGo lowered rest best bestLength

/-- Embedding of JarvisAssistant.find_skill: lower-case the input, scan
all registered keywords, and return the matching handler and keyword of
greatest length (none when nothing matches). -/
def find_skill (registry : List (String × Skill)) (text : String) :
    Option (Skill × String) :=
  findSkillGo (pyLower text) registry none 0

/-! ## Speaker (speak.py) -/

/-- The observable state of a Speaker instance: the speaking flag and
current text (set by the speech thread), the utterance statistics, and a
trace of the texts for which say spawned a speech thread. -/
structure Speaker where
  speaking : Bool
  currentText : Option String
  total_utterances : Nat
  total_characters : Nat
  spawned : List String
deriving DecidableEq, Repr

/-- A freshly constructed Speaker: not speaking, zero statistics. -/
def Speaker.init : Speaker :=
  { speaking := false
    currentText := none
    total_utterances := 0
    total_characters := 0
    spawned := [] }

/-- Embedding of Speaker.say (the synchronous part): empty or
whitespace-only text returns immediately without spawning anything;
otherwise the text is stripped and a speech thread is spawned for it
(recorded in the spawned trace; the thread itself is what later sets the
speaking flag and updates the statistics). -/
def Speaker.say (sp : Speaker) (text : String) : Speaker :=
  if pyStrip text = "" then sp
  else { sp with spawned := sp.spawned ++ [pyStrip text] }

/-- Embedding of Speaker.stop: halt rendering, clear the speaking flag
and the current text; the backlog and statistics are untouched. -/
def Speaker.stop (sp : Speaker) : Speaker :=
  { sp with speaking := false, currentText := none }

/-! ## Assistant loop state and one cycle of JarvisAssistant.run (main.py) -/

/-- The mutable state of a JarvisAssistant touched by one loop cycle:
the brain, the speaker, and the session counters. -/
structure AssistantState where
  brain : Brain
  speaker : Speaker
  total_interactions : Nat
  successful_commands : Nat
  ai_responses : Nat
  errors : Nat
deriving DecidableEq, Repr

/-- A freshly constructed assistant: fresh brain and speaker, zero
counters. -/
def AssistantState.initial : AssistantState :=
  { brain := Brain.init
    speaker := Speaker.init
    total_interactions := 0
    successful_commands := 0
    ai_responses := 0
    errors := 0 }

/-- Embedding of JarvisAssistant.is_wake_word: empty text has no wake
word; otherwise some configured wake word occurs in the lower-cased
text. -/
def is_wake_word (cfg : Config) (text : String) : Bool :=
  if text = "" then false
  else cfg.wakeWords.any (fun w => strContains (pyLower text) w)

/-- Embedding of JarvisAssistant.strip_wake_words: lower-case the text,
remove every occurrence of each wake word in turn, then strip
surrounding whitespace. -/
def strip_wake_words (cfg : Config) (text : String) : String :=
  pyStrip (cfg.wakeWords.foldl (fun command w => removeAllStr w command) (pyLower text))

/-- Embedding of Brain.clear_history: empty the history and reset the
interaction counter. -/
def Brain.clear_history (_b : Brain) : Brain :=
  { history := [], interaction_count := 0 }

/-- The spoken summary produced by JarvisAssistant.print_statistics. -/
def statsSummary (st : AssistantState) : String :=
  "I\x27ve handled " ++ toString st.total_interactions ++ " interactions, with " ++
    toString st.successful_commands ++ " skill executions and " ++
    toString st.ai_responses ++ " AI responses."

/-- The spoken confirmation produced by JarvisAssistant.show_help. -/
def helpSpeech : String :=
  "I\x27ve displayed the available commands. You can ask me to open apps, check the time, control hardware, or just chat with me."

/-- Embedding of JarvisAssistant.handle_special_commands: in priority
order, stop words halt speech, a statistics request speaks the summary,
a history-clear request clears the brain and speaks a confirmation, and
a help request speaks the help text; each returns true.  Otherwise the
state is untouched and false is returned. -/
def handle_special_commands (cfg : Config) (st : AssistantState)
    (text : String) : AssistantState × Bool :=
  let lowered := (pyLower text)
  if cfg.stopWords.any (fun w => strContains lowered w) then
    ({ st with speaker := st.speaker.stop }, true)
  else if strContains lowered "statistics" || strContains lowered "stats" then
    ({ st with speaker := st.speaker.say (statsSummary st) }, true)
  else if strContains lowered "clear history" || strContains lowered "forget conversation" then
    ({ st with
        brain := st.brain.clear_history,
        speaker := st.speaker.say "Conversation history cleared." }, true)
  else if strContains lowered "help" && strContains lowered "jarvis" then
    ({ st with speaker := st.speaker.say helpSpeech }, true)
  else
    (st, false)

/-- The handlers that JarvisAssistant.execute_skill calls with the
joined remainder text: open_app, close_app and search_web. -/
def textArgSkills : List Skill :=
  [Skill.open_app, Skill.close_app, Skill.search_web]

/-- The try-body of JarvisAssistant.execute_skill: pick the calling
convention from the handler identity, strip the first occurrence of the
matched keyword from the command, and invoke the handler (abstracted by
the runHandler argument, which may raise).  For the text-argument
handlers an empty remainder substitutes a clarification prompt instead
of invoking the handler; control_hardware receives the first remaining
word, defaulting to the status action. -/
def dispatch (runHandler : Skill → Option String → PyResult) (sk : Skill)
    (command keyword : String) : PyResult :=
  if sk ∈ textArgSkills then
    let args := pySplit (pyStrip (replaceFirstStr keyword command))
    if args ≠ [] then runHandler sk (some (String.intercalate " " args))
    else PyResult.returns "Please specify what to open."
  else if sk = Skill.control_hardware then
    let args := pySplit (pyStrip (replaceFirstStr keyword command))
    runHandler sk (some (args.headD "status"))
  else
    runHandler sk none

/-- Embedding of JarvisAssistant.execute_skill: run the dispatch body;
when it returns normally the successful_commands counter is incremented
and the result returned, and when it raises the exception is caught, the
errors counter incremented, and a diagnostic string returned. -/
def execute_skill (st : AssistantState)
    (runHandler : Skill → Option String → PyResult) (sk : Skill)
    (command keyword : String) : AssistantState × String :=
  match dispatch runHandler sk command keyword with
  | PyResult.returns r =>
    ({ st with successful_commands := st.successful_commands + 1 }, r)
  | PyResult.raises e =>
    ({ st with errors := st.errors + 1 },
     "I encountered an unexpected error: " ++ e)

/-- Embedding of JarvisAssistant.process_with_ai: delegate to
Brain.chat; a normal return increments ai_responses, while a raised
exception is caught, counted as an error, and converted to a diagnostic
string.  The brain state reached before the exception persists. -/
def process_with_ai (st : AssistantState) (cfg : Config) (command : String)
    (outcome : BackendOutcome) : AssistantState × String :=
  match st.brain.chat cfg command outcome with
  | (b, PyResult.returns response) =>
    ({ st with brain := b, ai_responses := st.ai_responses + 1 }, response)
  | (b, PyResult.raises e) =>
    ({ st with brain := b, errors := st.errors + 1 },
     "I had trouble processing that: " ++ e)

/-- One cycle of the body of JarvisAssistant.run, from the point where
the listener produced the value heard (none models both a timeout and an
unintelligible capture).  Mirrors the source order: discard falsy input,
handle special commands, require a wake word, count the interaction,
strip wake words, discard empty commands, then route to a skill or to
the AI and speak the result. -/
def runCycle (cfg : Config) (registry : List (String × Skill))
    (runHandler : Skill → Option String → PyResult) (outcome : BackendOutcome)
    (st : AssistantState) (heard : Option String) : AssistantState :=
  match heard with
  | none => st
  | some h =>
    if h = "" then st
    else
      let handled := handle_special_commands cfg st h
      if handled.2 then handled.1
      else if ¬ is_wake_word cfg h then st
      else
        let st1 := { st with total_interactions := st.total_interactions + 1 }
        let command := strip_wake_words cfg h
        if command = "" then st1
        else
          match find_skill registry command with
          | some (sk, keyword) =>
            let res := execute_skill st1 runHandler sk command keyword
            { res.1 with speaker := res.1.speaker.say res.2 }
          | none =>
            let res := process_with_ai st1 cfg command outcome
            { res.1 with speaker := res.1.speaker.say res.2 }

/-! ## History operation traces (for the eviction-order property) -/

/-- One primitive mutation of the conversation history as performed by
Brain.chat: appending one message, or running Brain._trim_history. -/
inductive HistOp where
  | push (m : Message)
  | trim
deriving DecidableEq, Repr

/-- Apply a sequence of appends and trims to a history, mirroring how
Brain.chat mutates self.history. -/
def applyOps (maxLength : Nat) : List HistOp → List Message → List Message
  | [], h => h
  | HistOp.push m :: rest, h => applyOps maxLength rest (h ++ [m])
  | HistOp.trim :: rest, h => applyOps maxLength rest (trim_history maxLength h)

/-- The full unbounded append sequence of the same trace: every pushed
message is kept and trims do nothing. -/
def fullLog : List HistOp → List Message → List Message
  | [], h => h
  | HistOp.push m :: rest, h => fullLog rest (h ++ [m])
  | HistOp.trim :: rest, h => fullLog rest h

/-- Folding a whole sequence of chat calls over a Brain, threading the
state; each list element carries the user message and the backend
outcome of that call. -/
def runChats (cfg : Config) : List (String × BackendOutcome) → Brain → Brain
  | [], b => b
  | (m, o) :: rest, b => runChats cfg rest ((b.chat cfg m o).1)

/-! ## Helper lemmas -/

theorem trim_history_length_le (maxLength : Nat) (h : List Message) :
    (trim_history maxLength h).length ≤ maxLength := by
  unfold trim_history
  by_cases hc : h.length - maxLength > 0
  · simp [hc]
    omega
  · simp [hc]
    omega

theorem mem_of_mem_trim_history {maxLength : Nat} {h : List Message}
    {m : Message} (hm : m ∈ trim_history maxLength h) : m ∈ h := by
  unfold trim_history at hm
  by_cases hc : h.length - maxLength > 0
  · simp [hc] at hm
    exact List.mem_of_mem_drop hm
  · simpa [hc] using hm

theorem trim_history_suffix (maxLength : Nat) (h : List Message) :
    trim_history maxLength h <:+ h := by
  unfold trim_history
  by_cases hc : h.length - maxLength > 0
  · simp [hc]
    exact List.drop_suffix _ _
  · simp [hc]

theorem chat_history_length_le (b : Brain) (cfg : Config) (msg : String)
    (outcome : BackendOutcome) :
    ((b.chat cfg msg outcome).1).history.length ≤ cfg.maxHistoryLength := by
  unfold Brain.chat
  cases outcome with
  | success raw =>
    by_cases hr : pyStrip raw = ""
    · simp [hr, trim_history_length_le]
    · simp [hr, trim_history_length_le]
  | responseError e => simp [trim_history_length_le]
  | connectionError e => simp [trim_history_length_le]
  | otherError e => simp [trim_history_length_le]

/-! ## Claim theorems -/

/-- Claim C1: for every sequence of chat calls on a Brain instance,
whatever each backend call does (success, empty reply, ollama error,
connection error, or an unexpected exception), the history length is at
most the configured maximum after each call: after any nonempty
sequence of calls starting from any brain state, the final history
length is bounded by maxHistoryLength. -/
theorem chat_history_invariant (cfg : Config) (b : Brain)
    (call : String × BackendOutcome) (calls : List (String × BackendOutcome)) :
    (runChats cfg (call :: calls) b).history.length ≤ cfg.maxHistoryLength := by
  induction calls generalizing b call with
  | nil =>
    obtain ⟨m, o⟩ := call
    simpa [runChats] using chat_history_length_le b cfg m o
  | cons c rest ih =>
    obtain ⟨m, o⟩ := call
    simpa [runChats] using ih ((b.chat cfg m o).1) c

/-- Claim C2 (evaluation at the failing input): when the backend call
raises an exception that is neither an ollama.ResponseError nor a
ConnectionError, Brain.chat re-raises it from inside the first
except-clause, and the second except-clause of the same try statement
never sees it, so the exception propagates to the caller instead of
being converted to a string. -/
theorem chat_unexpected_error_propagates :
    (Brain.init.chat defaultConfig "hello"
      (BackendOutcome.otherError "boom")).2 = PyResult.raises "boom" := rfl

/-- Claim C5: history eviction drops the oldest messages first: after
any sequence of appends and trims, the retained history is a suffix of
the full unbounded append sequence, namely its most recent
len(history) messages. -/
theorem eviction_keeps_recent_suffix (maxLength : Nat) (ops : List HistOp)
    (init : List Message) :
    applyOps maxLength ops init <:+ fullLog ops init ∧
    (fullLog ops init).drop
        ((fullLog ops init).length - (applyOps maxLength ops init).length) =
      applyOps maxLength ops init := by
  have aux : ∀ (ops : List HistOp) (h g : List Message), h <:+ g →
      applyOps maxLength ops h <:+ fullLog ops g := by
    intro ops
    induction ops with
    | nil => intro h g hs; simpa [applyOps, fullLog] using hs
    | cons op rest ih =>
      intro h g hs
      cases op with
      | push m =>
        refine ih (h ++ [m]) (g ++ [m]) ?_
        obtain ⟨t, ht⟩ := hs
        exact ⟨t, by rw [← ht, List.append_assoc]⟩
      | trim =>
        exact ih (trim_history maxLength h) g
          ((trim_history_suffix maxLength h).trans hs)
  have hsuf : applyOps maxLength ops init <:+ fullLog ops init :=
    aux ops init init (List.suffix_refl init)
  refine ⟨hsuf, ?_⟩
  obtain ⟨t, ht⟩ := hsuf
  rw [← ht]
  have hlen : (t ++ applyOps maxLength ops init).length -
      (applyOps maxLength ops init).length = t.length := by
    simp
  rw [hlen]
  exact List.drop_left t (applyOps maxLength ops init)

/-- Claim C6: an empty or whitespace-only backend reply makes chat
return the fixed clarification string as an ordinary return value, and
no assistant message is appended to the history for that call: the
post-call history is exactly the trimmed pre-call history plus the user
message, and every assistant message in it was already there before the
call. -/
theorem chat_empty_reply_clarifies (b : Brain) (cfg : Config)
    (msg raw : String) (hraw : pyStrip raw = "") :
    (b.chat cfg msg (BackendOutcome.success raw)).2 =
      PyResult.returns emptyReplyMessage ∧
    (b.chat cfg msg (BackendOutcome.success raw)).1.history =
      trim_history cfg.maxHistoryLength
        (b.history ++ [{ role := Role.user, content := msg }]) ∧
    ∀ m ∈ (b.chat cfg msg (BackendOutcome.success raw)).1.history,
      m.role = Role.assistant → m ∈ b.history := by
  refine ⟨by simp [Brain.chat, hraw], by simp [Brain.chat, hraw], ?_⟩
  intro m hm hrole
  simp [Brain.chat, hraw] at hm
  have hm2 : m ∈ b.history ++ [{ role := Role.user, content := msg }] :=
    mem_of_mem_trim_history hm
  rcases List.mem_append.mp hm2 with hold | hnew
  · exact hold
  · simp at hnew
    rw [hnew] at hrole
    simp at hrole

/-- Witness for chat_empty_reply_clarifies at a concrete whitespace
reply. -/
theorem chat_empty_reply_clarifies_witness :
    (Brain.init.chat defaultConfig "hi" (BackendOutcome.success "  ")).2 =
      PyResult.returns emptyReplyMessage :=
  (chat_empty_reply_clarifies Brain.init defaultConfig "hi" "  " (by rfl)).1

/-- Claim C8: calling say with empty or whitespace-only text is a
no-op: the speaker state is returned unchanged, so no speech thread is
spawned, the speaking flag keeps its value (false stays false), and the
utterance and character statistics are untouched. -/
theorem say_blank_is_noop (sp : Speaker) (text : String)
    (htext : pyStrip text = "") : sp.say text = sp := by
  simp [Speaker.say, htext]

/-- Witness for say_blank_is_noop on a whitespace-only string. -/
theorem say_blank_is_noop_witness :
    Speaker.init.say "  " = Speaker.init :=
  say_blank_is_noop Speaker.init "  " (by rfl)

/-- A trim never evicts the newest message as long as at least one
message may be kept. -/
theorem last_mem_trim_history (maxLength : Nat) (h : List Message)
    (u : Message) (hmax : 1 ≤ maxLength) :
    u ∈ trim_history maxLength (h ++ [u]) := by
  unfold trim_history
  by_cases hc : (h ++ [u]).length - maxLength > 0
  · simp only [hc, if_pos]
    have hle : (h ++ [u]).length - maxLength ≤ h.length := by
      simp only [List.length_append, List.length_cons, List.length_nil]
      omega
    rw [List.drop_append_of_le_length hle]
    simp
  · have hlt : ¬ maxLength < h.length + 1 := by
      simp only [List.length_append, List.length_cons, List.length_nil] at hc
      omega
    simp [hlt]

/-- Claim C9: chat appends the user message to the history before
contacting the backend, so whenever a call ends with a diagnostic string
(ollama error, connection failure, or empty reply) instead of raising,
the appended user message is still there: the post-call history is the
trimmed pre-call history plus the user message, with no rollback. -/
theorem chat_failure_keeps_user_message (b : Brain) (cfg : Config)
    (msg : String) (outcome : BackendOutcome)
    (hmax : 1 ≤ cfg.maxHistoryLength)
    (hfail : (∃ e, outcome = BackendOutcome.responseError e) ∨
      (∃ e, outcome = BackendOutcome.connectionError e) ∨
      (∃ raw, outcome = BackendOutcome.success raw ∧ pyStrip raw = "")) :
    (∃ s, (b.chat cfg msg outcome).2 = PyResult.returns s) ∧
    (b.chat cfg msg outcome).1.history =
      trim_history cfg.maxHistoryLength
        (b.history ++ [{ role := Role.user, content := msg }]) ∧
    ({ role := Role.user, content := msg } : Message) ∈
      (b.chat cfg msg outcome).1.history := by
  have hmem := last_mem_trim_history cfg.maxHistoryLength b.history
    { role := Role.user, content := msg } hmax
  rcases hfail with ⟨e, rfl⟩ | ⟨e, rfl⟩ | ⟨raw, rfl, hraw⟩
  · exact ⟨⟨_, rfl⟩, rfl, hmem⟩
  · exact ⟨⟨_, rfl⟩, rfl, hmem⟩
  · refine ⟨⟨emptyReplyMessage, ?_⟩, ?_, ?_⟩
    · simp [Brain.chat, hraw]
    · simp [Brain.chat, hraw]
    · simpa [Brain.chat, hraw] using hmem

/-- Witness for chat_failure_keeps_user_message: a connection failure on
a fresh brain with the default configuration. -/
theorem chat_failure_keeps_user_message_witness :
    ({ role := Role.user, content := "hi" } : Message) ∈
      (Brain.init.chat defaultConfig "hi"
        (BackendOutcome.connectionError "down")).1.history :=
  (chat_failure_keeps_user_message Brain.init defaultConfig "hi"
    (BackendOutcome.connectionError "down") (by decide)
    (Or.inr (Or.inl ⟨"down", rfl⟩))).2.2

/-- Claim C10: execute_skill increments successful_commands exactly when
the dispatch body returns without raising — including the path where the
remainder after keyword stripping is empty, where the clarification
prompt is substituted without ever invoking the handler (the result is
independent of the handler behavior), and any path where the handler
itself returns a failure message; a raising handler leaves the counter
unchanged.  The counter therefore counts non-throwing dispatches, not
actual successes. -/
theorem execute_skill_counts_dispatches (st : AssistantState)
    (runHandler : Skill → Option String → PyResult) (sk : Skill)
    (command keyword : String) :
    (∀ r, dispatch runHandler sk command keyword = PyResult.returns r →
      (execute_skill st runHandler sk command keyword).1.successful_commands =
        st.successful_commands + 1 ∧
      (execute_skill st runHandler sk command keyword).1.errors = st.errors ∧
      (execute_skill st runHandler sk command keyword).2 = r) ∧
    (∀ e, dispatch runHandler sk command keyword = PyResult.raises e →
      (execute_skill st runHandler sk command keyword).1.successful_commands =
        st.successful_commands) ∧
    (sk ∈ textArgSkills →
      pySplit (pyStrip (replaceFirstStr keyword command)) = [] →
      dispatch runHandler sk command keyword =
        PyResult.returns "Please specify what to open." ∧
      (execute_skill st runHandler sk command keyword).1.successful_commands =
        st.successful_commands + 1) := by
  refine ⟨?_, ?_, ?_⟩
  · intro r hr
    simp [execute_skill, hr]
  · intro e he
    simp [execute_skill, he]
  · intro hsk hempty
    have hd : dispatch runHandler sk command keyword =
        PyResult.returns "Please specify what to open." := by
      simp [dispatch, hsk, hempty]
    exact ⟨hd, by simp [execute_skill, hd]⟩

/-- Witness for execute_skill_counts_dispatches: the open skill invoked
with no argument text, against a handler that would raise if it were
ever called; the counter still increments and the clarification prompt
is returned. -/
theorem execute_skill_counts_dispatches_witness :
    dispatch (fun _ _ => PyResult.raises "never called") Skill.open_app
        "open" "open" = PyResult.returns "Please specify what to open." ∧
    (execute_skill AssistantState.initial
        (fun _ _ => PyResult.raises "never called") Skill.open_app
        "open" "open").1.successful_commands =
      AssistantState.initial.successful_commands + 1 :=
  (execute_skill_counts_dispatches AssistantState.initial
    (fun _ _ => PyResult.raises "never called") Skill.open_app
    "open" "open").2.2 (by decide) (by rfl)

theorem findSkillGo_of_no_match (lowered : String) :
    ∀ (l : List (String × Skill)) (best : Option (Skill × String))
      (bestLength : Nat),
    (∀ p ∈ l, strContains lowered p.1 = false) →
    findSkillGo lowered l best bestLength = best := by
  intro l
  induction l with
  | nil => intro best bestLength _; rfl
  | cons kv rest ih =>
    intro best bestLength hnone
    obtain ⟨keyword, func⟩ := kv
    have hk : strContains lowered keyword = false :=
      hnone (keyword, func) (by simp)
    simp only [findSkillGo]
    rw [if_neg (by simp [hk])]
    exact ih best bestLength (fun p hp => hnone p (by simp [hp]))

theorem findSkillGo_none_spec (lowered : String) :
    ∀ (l : List (String × Skill)) (best : Option (Skill × String))
      (bestLength : Nat),
    findSkillGo lowered l best bestLength = none →
    best = none ∧
    ∀ p ∈ l, strContains lowered p.1 = true → p.1.length ≤ bestLength := by
  intro l
  induction l with
  | nil =>
    intro best bestLength hres
    simp only [findSkillGo] at hres
    exact ⟨hres, by simp⟩
  | cons kv rest ih =>
    intro best bestLength hres
    obtain ⟨keyword, func⟩ := kv
    simp only [findSkillGo] at hres
    by_cases hcond : strContains lowered keyword = true ∧
        bestLength < keyword.length
    · rw [if_pos (by exact_mod_cast hcond)] at hres
      obtain ⟨habs, -⟩ := ih (some (func, keyword)) keyword.length hres
      cases habs
    · rw [if_neg (by exact_mod_cast hcond)] at hres
      obtain ⟨hb, hrest⟩ := ih best bestLength hres
      refine ⟨hb, ?_⟩
      intro p hp hcp
      rcases List.mem_cons.mp hp with rfl | hp2
      · have hcp2 : strContains lowered keyword = true := by simpa using hcp
        have hle : ¬ bestLength < keyword.length :=
          fun hlt => hcond ⟨hcp2, hlt⟩
        simpa using Nat.le_of_not_lt hle
      · exact hrest p hp2 hcp

/-- Full characterization of the find_skill scan: a returned winner
matches the input, and either it was already the accumulator and nothing
scanned beats it, or it sits at a position of the registry where every
earlier matching keyword is strictly shorter and every later matching
keyword is no longer. -/
theorem findSkillGo_spec (lowered : String) :
    ∀ (l : List (String × Skill)) (best : Option (Skill × String))
      (bestLength : Nat),
    (∀ sk kw, best = some (sk, kw) →
      strContains lowered kw = true ∧ kw.length = bestLength) →
    ∀ sk kw, findSkillGo lowered l best bestLength = some (sk, kw) →
    strContains lowered kw = true ∧
    ((best = some (sk, kw) ∧ kw.length = bestLength ∧
        ∀ p ∈ l, strContains lowered p.1 = true → p.1.length ≤ bestLength) ∨
      (∃ l₁ l₂, l = l₁ ++ (kw, sk) :: l₂ ∧ bestLength < kw.length ∧
        (∀ p ∈ l₁, strContains lowered p.1 = true → p.1.length < kw.length) ∧
        (∀ p ∈ l₂, strContains lowered p.1 = true → p.1.length ≤ kw.length))) := by
  intro l
  induction l with
  | nil =>
    intro best bestLength hbest sk kw hres
    simp only [findSkillGo] at hres
    obtain ⟨hc, hlen⟩ := hbest sk kw hres
    exact ⟨hc, Or.inl ⟨hres, hlen, by simp⟩⟩
  | cons kv rest ih =>
    intro best bestLength hbest sk kw hres
    obtain ⟨keyword, func⟩ := kv
    simp only [findSkillGo] at hres
    by_cases hcond : strContains lowered keyword = true ∧
        bestLength < keyword.length
    · rw [if_pos (by exact_mod_cast hcond)] at hres
      have hbest2 : ∀ sk2 kw2, (some (func, keyword) : Option (Skill × String)) =
          some (sk2, kw2) →
          strContains lowered kw2 = true ∧ kw2.length = keyword.length := by
        intro sk2 kw2 heq2
        obtain ⟨rfl, rfl⟩ : func = sk2 ∧ keyword = kw2 := by
          simpa using heq2
        exact ⟨hcond.1, rfl⟩
      obtain ⟨hckw, hdisj⟩ := ih (some (func, keyword)) keyword.length hbest2
        sk kw hres
      refine ⟨hckw, Or.inr ?_⟩
      rcases hdisj with ⟨heq, hlen, hall⟩ | ⟨l₁, l₂, heq, hlt, hl₁, hl₂⟩
      · obtain ⟨rfl, rfl⟩ : func = sk ∧ keyword = kw := by simpa using heq
        refine ⟨[], rest, by simp, hcond.2, by simp, ?_⟩
        intro p hp hcp
        exact hall p hp hcp
      · refine ⟨(keyword, func) :: l₁, l₂, by simp [heq],
          lt_trans hcond.2 hlt, ?_, hl₂⟩
        intro p hp hcp
        rcases List.mem_cons.mp hp with rfl | hp2
        · exact hlt
        · exact hl₁ p hp2 hcp
    · rw [if_neg (by exact_mod_cast hcond)] at hres
      have hnotlong : strContains lowered keyword = true →
          keyword.length ≤ bestLength := by
        intro hck
        by_contra hgt
        exact hcond ⟨hck, by omega⟩
      obtain ⟨hckw, hdisj⟩ := ih best bestLength hbest sk kw hres
      refine ⟨hckw, ?_⟩
      rcases hdisj with ⟨heq, hlen, hall⟩ | ⟨l₁, l₂, heq, hlt, hl₁, hl₂⟩
      · refine Or.inl ⟨heq, hlen, ?_⟩
        intro p hp hcp
        rcases List.mem_cons.mp hp with rfl | hp2
        · exact hnotlong hcp
        · exact hall p hp2 hcp
      · refine Or.inr ⟨(keyword, func) :: l₁, l₂, by simp [heq], hlt, ?_, hl₂⟩
        intro p hp hcp
        rcases List.mem_cons.mp hp with rfl | hp2
        · exact lt_of_le_of_lt (hnotlong hcp) hlt
        · exact hl₁ p hp2 hcp

/-- Claim C3: find_skill returns a handler together with a keyword that
occurs in the lower-cased input and whose length no other registered
matching keyword strictly exceeds; when no registered keyword occurs in
the input it returns none; and on the real registry (which holds both
the keywords time and what time) the input what time is it resolves to
what time. -/
theorem find_skill_longest_match (registry : List (String × Skill))
    (text : String) :
    ((∀ p ∈ registry, strContains (pyLower text) p.1 = false) →
      find_skill registry text = none) ∧
    (∀ sk kw, find_skill registry text = some (sk, kw) →
      strContains (pyLower text) kw = true ∧ (kw, sk) ∈ registry ∧
      ∀ p ∈ registry, strContains (pyLower text) p.1 = true →
        p.1.length ≤ kw.length) ∧
    (find_skill registry text = none →
      ∀ p ∈ registry, 0 < p.1.length →
        strContains (pyLower text) p.1 = false) ∧
    find_skill SKILLS "what time is it" = some (Skill.get_time, "what time") := by
  refine ⟨?_, ?_, ?_, by decide⟩
  · intro hnone
    exact findSkillGo_of_no_match (pyLower text) registry none 0 hnone
  · intro sk kw hres
    obtain ⟨hc, hdisj⟩ := findSkillGo_spec (pyLower text) registry none 0
      (by intro sk2 kw2 habs; cases habs) sk kw hres
    rcases hdisj with ⟨habs, -, -⟩ | ⟨l₁, l₂, heq, -, hl₁, hl₂⟩
    · cases habs
    · refine ⟨hc, by simp [heq], ?_⟩
      intro p hp hcp
      rw [heq] at hp
      rcases List.mem_append.mp hp with hp1 | hp2
      · exact le_of_lt (hl₁ p hp1 hcp)
      · rcases List.mem_cons.mp hp2 with rfl | hp3
        · exact le_refl _
        · exact hl₂ p hp3 hcp
  · intro hres p hp hlen
    obtain ⟨-, hall⟩ := findSkillGo_none_spec (pyLower text) registry none 0 hres
    by_contra hcp
    have := hall p hp (by simpa using hcp)
    omega

/-- Witness for find_skill_longest_match: no keyword of the real
registry occurs in the input zzz, so nothing matches, and the longest
match is picked for what time is it. -/
theorem find_skill_longest_match_witness :
    find_skill SKILLS "zzz" = none ∧
    find_skill SKILLS "what time is it" = some (Skill.get_time, "what time") :=
  ⟨(find_skill_longest_match SKILLS "zzz").1 (by decide),
   (find_skill_longest_match SKILLS "what time is it").2.2.2⟩

/-- Claim C4 is false on the code: the scan updates its best match only
on a strictly greater length, so a tie between equal-length maximal
keywords keeps the one encountered first, not last.  On the real
registry the input timedate matches exactly the equal-length keywords
time (registry position 7) and date (registry position 9); the claim
predicts the later date, but find_skill returns time. -/
theorem find_skill_tie_counterexample :
    strContains (pyLower "timedate") "time" = true ∧
    strContains (pyLower "timedate") "date" = true ∧
    String.length "time" = String.length "date" ∧
    List.indexOf ("time", Skill.get_time) SKILLS = 7 ∧
    List.indexOf ("date", Skill.get_date) SKILLS = 9 ∧
    find_skill SKILLS "timedate" = some (Skill.get_time, "time") ∧
    find_skill SKILLS "timedate" ≠ some (Skill.get_date, "date") := by
  decide

/-- Claim C4 (amended): when two or more registered keywords of equal
maximal length occur as substrings of the input, find_skill resolves the
tie to the keyword encountered first during the scan of the registry:
every entry scanned before the returned keyword either does not match or
is strictly shorter. -/
theorem find_skill_tie_goes_to_first (registry : List (String × Skill))
    (text : String) (sk : Skill) (kw : String)
    (hres : find_skill registry text = some (sk, kw)) :
    ∃ l₁ l₂, registry = l₁ ++ (kw, sk) :: l₂ ∧
      ∀ p ∈ l₁, strContains (pyLower text) p.1 = true →
        p.1.length < kw.length := by
  obtain ⟨-, hdisj⟩ := findSkillGo_spec (pyLower text) registry none 0
    (by intro sk2 kw2 habs; cases habs) sk kw hres
  rcases hdisj with ⟨habs, -, -⟩ | ⟨l₁, l₂, heq, -, hl₁, -⟩
  · cases habs
  · exact ⟨l₁, l₂, heq, hl₁⟩

/-- Witness for find_skill_tie_goes_to_first at the timedate tie on the
real registry. -/
theorem find_skill_tie_goes_to_first_witness :
    ∃ l₁ l₂, SKILLS = l₁ ++ ("time", Skill.get_time) :: l₂ ∧
      ∀ p ∈ l₁, strContains (pyLower "timedate") p.1 = true →
        p.1.length < String.length "time" :=
  find_skill_tie_goes_to_first SKILLS "timedate" Skill.get_time "time"
    (by decide)

/-- Claim C7: a heard utterance containing no special control phrase
(no stop word, no statistics, history-clear or help request) and no
configured wake word is discarded by the cycle: the assistant state is
returned unchanged, so no counter moves, the history is untouched, and
nothing is handed to the speech subsystem. -/
theorem runCycle_discards_without_wake_word (cfg : Config)
    (registry : List (String × Skill))
    (runHandler : Skill → Option String → PyResult)
    (outcome : BackendOutcome) (st : AssistantState) (h : String)
    (hstop : ∀ w ∈ cfg.stopWords, strContains (pyLower h) w = false)
    (hstats : strContains (pyLower h) "statistics" = false)
    (hstats2 : strContains (pyLower h) "stats" = false)
    (hclear : strContains (pyLower h) "clear history" = false)
    (hforget : strContains (pyLower h) "forget conversation" = false)
    (hhelp : strContains (pyLower h) "help" = false ∨
      strContains (pyLower h) "jarvis" = false)
    (hwake : ∀ w ∈ cfg.wakeWords, strContains (pyLower h) w = false) :
    runCycle cfg registry runHandler outcome st (some h) = st := by
  have hany : cfg.stopWords.any (fun w => strContains (pyLower h) w) = false := by
    rw [List.any_eq_false]
    intro w hw
    simp [hstop w hw]
  have hspecial : handle_special_commands cfg st h = (st, false) := by
    unfold handle_special_commands
    rcases hhelp with hh | hh <;>
      simp [hany, hstats, hstats2, hclear, hforget, hh]
  have hwake2 : is_wake_word cfg h = false := by
    unfold is_wake_word
    by_cases he : h = ""
    · simp [he]
    · rw [if_neg he, List.any_eq_false]
      intro w hw
      simp [hwake w hw]
  unfold runCycle
  by_cases he : h = ""
  · simp [he]
  · simp [he, hspecial, hwake2]

/-- Witness for runCycle_discards_without_wake_word: the utterance
what time alone (no wake word) on a fresh assistant with the default
configuration is fully discarded. -/
theorem runCycle_discards_without_wake_word_witness :
    runCycle defaultConfig SKILLS (fun _ _ => PyResult.returns "ok")
      (BackendOutcome.success "yes") AssistantState.initial
      (some "what time") = AssistantState.initial :=
  runCycle_discards_without_wake_word defaultConfig SKILLS
    (fun _ _ => PyResult.returns "ok") (BackendOutcome.success "yes")
    AssistantState.initial "what time" (by decide) (by decide) (by decide)
    (by decide) (by decide) (by decide) (by decide)

end Jarvis
